import Mathlib

/-!
Verification of the "Spy School Decryption Engine" repository.

The repository contains two near-identical JavaScript implementations:
`src/script.js` (with case-preservation and Think-Mode gating) and a second
file (`src/unnamed/part_000`, the "V2.0 Multi-Student" variant).  This file
gives a shallow embedding of both cores:

* `SpySchool.CipherEngine` / `SpySchool.V2.CipherEngine` — the pure
  per-character Caesar decoders;
* `SpySchool.LoopEngine` — the stateful step sequencer of `script.js`,
  with two ghost observables (`missionCompleteCount` counting invocations of
  the completion callback, and `liveTimers` counting interval timers that
  have been started and not cleared);
* `SpySchool.ClassSync` / `SpySchool.V2.ClassSync` — the CSV row builders.

JavaScript details are modelled as follows: the `%` operator on numbers is
truncated remainder, i.e. `Int.tmod`; `Array.prototype.indexOf` returns the
first index or `-1` (`jsIndexOf`); the regular expression test
`/[A-Z]/.test(letter)` on a single character checks code points 65–90;
`toLowerCase`/`toUpperCase` are modelled by the ASCII simple case mapping
(identity on all other characters), which is what the engine exercises on
its 26-letter alphabet.
-/

namespace SpySchool

/-- Test of the regular expression `[A-Z]` on a single character:
true exactly on code points 65–90. -/
def jsIsUpperAZ (c : Char) : Bool :=
  65 ≤ c.toNat && c.toNat ≤ 90

/-- `String.prototype.toLowerCase` on a single character, restricted to the
ASCII simple case mapping (identity on non-ASCII-uppercase characters). -/
def jsToLowerChar (c : Char) : Char :=
  if 65 ≤ c.toNat && c.toNat ≤ 90 then Char.ofNat (c.toNat + 32) else c

/-- `String.prototype.toUpperCase` on a single character, restricted to the
ASCII simple case mapping (identity on non-ASCII-lowercase characters). -/
def jsToUpperChar (c : Char) : Char :=
  if 97 ≤ c.toNat && c.toNat ≤ 122 then Char.ofNat (c.toNat - 32) else c

/-- `Array.prototype.indexOf`: first index of `c`, or `-1` when absent. -/
def jsIndexOf (c : Char) : List Char → Int
  | [] => -1
  | a :: rest =>
      if a = c then 0
      else
        let r := jsIndexOf c rest
        if r = -1 then -1 else r + 1

namespace CONFIG

/-- `CONFIG.ALPHABET` of `script.js`: the 26 lowercase letters. -/
def ALPHABET : List Char := "abcdefghijklmnopqrstuvwxyz".toList

/-- `CONFIG.DEFAULT_KEY` of `script.js`. -/
def DEFAULT_KEY : Int := 3

/-- `CONFIG.SPEED_LEVELS` of `script.js` (milliseconds per tick). -/
def SPEED_LEVELS : List Nat := [2000, 1500, 1000, 600, 300]

end CONFIG

/-- `clamp(n, min, max) = Math.max(min, Math.min(max, n))` from the source. -/
def clamp (n mn mx : Int) : Int := max mn (min mx n)

/-- The value object returned by `CipherEngine.decryptChar` in both files. -/
structure DecodeResult where
  isSpecial : Bool
  char : Char
  originalIndex : Int
  newIndex : Int
  rawCalculation : Option Int
deriving Repr, DecidableEq

namespace CipherEngine

/-- `CipherEngine.calculateNewPosition` of `script.js`:
`((position - key) % 26 + 26) % 26` with JavaScript truncated `%`. -/
def calculateNewPosition (position key : Int) : Int :=
  ((position - key).tmod 26 + 26).tmod 26

/-- `CipherEngine.decryptChar` of `script.js`.  The array access
`CONFIG.ALPHABET[newIndex]` is modelled with `List.getD`; `newIndex` is
provably in `[0, 25]`, so the default is never used. -/
def decryptChar (letter : Char) (key : Int) (preserveCase : Bool := true) :
    DecodeResult :=
  let isUpper := jsIsUpperAZ letter
  let lowerLetter := jsToLowerChar letter
  let index := jsIndexOf lowerLetter CONFIG.ALPHABET
  if index = -1 then
    { isSpecial := true, char := letter, originalIndex := -1, newIndex := -1,
      rawCalculation := none }
  else
    let rawCalc := index - key
    let newIndex := calculateNewPosition index key
    let newChar0 := CONFIG.ALPHABET.getD newIndex.toNat '?'
    let newChar := if preserveCase && isUpper then jsToUpperChar newChar0 else newChar0
    { isSpecial := false, char := newChar, originalIndex := index,
      newIndex := newIndex, rawCalculation := some rawCalc }

end CipherEngine

namespace V2

namespace CipherEngine

/-- `CipherEngine.calculateNewPosition` of the second file (identical text). -/
def calculateNewPosition (position key : Int) : Int :=
  ((position - key).tmod 26 + 26).tmod 26

/-- `CipherEngine.decryptChar` of the second file: no `preserveCase`
parameter; `isUpper` is `(letter === letter.toUpperCase() && /[A-Z]/.test(letter))`,
and the uppercase mapping is applied whenever `isUpper` holds. -/
def decryptChar (letter : Char) (key : Int) : DecodeResult :=
  let isUpper := (jsToUpperChar letter == letter) && jsIsUpperAZ letter
  let lowerLetter := jsToLowerChar letter
  let index := jsIndexOf lowerLetter CONFIG.ALPHABET
  if index = -1 then
    { isSpecial := true, char := letter, originalIndex := -1, newIndex := -1,
      rawCalculation := none }
  else
    let rawCalc := index - key
    let newIndex := calculateNewPosition index key
    let newChar0 := CONFIG.ALPHABET.getD newIndex.toNat '?'
    let newChar := if isUpper then jsToUpperChar newChar0 else newChar0
    { isSpecial := false, char := newChar, originalIndex := index,
      newIndex := newIndex, rawCalculation := some rawCalc }

end CipherEngine

end V2

/-- The double-modulo of the source normalises any integer to its
mathematical residue mod 26. -/
theorem tmod_plus26_eq_emod (a : Int) : (a.tmod 26 + 26).tmod 26 = a % 26 := by
  have hlow : -26 < a.tmod 26 := by
    rcases le_or_lt 0 a with h | h
    · have := Int.tmod_nonneg 26 h
      omega
    · have h1 : (-a).tmod 26 = -(a.tmod 26) := by
        rw [Int.tmod_def, Int.tmod_def, Int.neg_tdiv]; ring
      have h2 := Int.tmod_lt_of_pos (-a) (by norm_num : (0 : Int) < 26)
      omega
  have hhigh := Int.tmod_lt_of_pos a (by norm_num : (0 : Int) < 26)
  have hnn : 0 ≤ a.tmod 26 + 26 := by omega
  rw [Int.tmod_eq_emod hnn (by norm_num)]
  have hdef : a.tmod 26 = a - 26 * a.tdiv 26 := Int.tmod_def a 26
  rw [hdef]
  omega

theorem calculateNewPosition_eq_emod (position key : Int) :
    CipherEngine.calculateNewPosition position key = (position - key) % 26 := by
  unfold CipherEngine.calculateNewPosition
  exact tmod_plus26_eq_emod (position - key)

theorem calculateNewPosition_range (position key : Int) :
    0 ≤ CipherEngine.calculateNewPosition position key ∧
      CipherEngine.calculateNewPosition position key ≤ 25 := by
  rw [calculateNewPosition_eq_emod]
  omega

/-- `jsIndexOf` returns `-1` on characters absent from the list. -/
theorem jsIndexOf_of_not_mem {c : Char} {l : List Char} (h : c ∉ l) :
    jsIndexOf c l = -1 := by
  induction l with
  | nil => rfl
  | cons a rest ih =>
      have hac : a ≠ c := fun hEq => h (hEq ▸ List.mem_cons_self a rest)
      have hrest : c ∉ rest := fun hm => h (List.mem_cons_of_mem a hm)
      simp [jsIndexOf, hac, ih hrest]

/-- `jsIndexOf` returns a non-negative index on members of the list. -/
theorem jsIndexOf_nonneg_of_mem {c : Char} {l : List Char} (h : c ∈ l) :
    0 ≤ jsIndexOf c l := by
  induction l with
  | nil => simp at h
  | cons a rest ih =>
      by_cases hac : a = c
      · simp [jsIndexOf, hac]
      · have hrest : c ∈ rest := by
          rcases List.mem_cons.mp h with h1 | h1
          · exact absurd h1.symm hac
          · exact h1
        have hnn := ih hrest
        have hne : jsIndexOf c rest ≠ -1 := by omega
        simp only [jsIndexOf, if_neg hac, if_neg hne]
        omega

/-- `jsIndexOf` returns `-1` exactly on characters absent from the list. -/
theorem jsIndexOf_eq_neg_one_iff (c : Char) (l : List Char) :
    jsIndexOf c l = -1 ↔ c ∉ l := by
  constructor
  · intro h hmem
    have := jsIndexOf_nonneg_of_mem hmem
    omega
  · exact jsIndexOf_of_not_mem

/-- A character that the `[A-Z]` test accepts is unchanged by `toUpperCase`. -/
theorem jsToUpperChar_eq_self_of_AZ {c : Char} (h : jsIsUpperAZ c = true) :
    jsToUpperChar c = c := by
  simp only [jsIsUpperAZ, Bool.and_eq_true, decide_eq_true_eq] at h
  simp only [jsToUpperChar]
  rw [if_neg]
  simp only [Bool.and_eq_true, decide_eq_true_eq, not_and]
  omega

/-- Claim C1: for every alphabet letter (a character whose case-folded form is
in the 26-letter alphabet) and every integer key, `decryptChar` computes
`originalIndex` as the position of the case-folded letter, `rawCalculation`
as `originalIndex - key`, and `newIndex` as `((rawShift % 26) + 26) % 26`
(JavaScript truncated `%`), which is the mathematical residue and lies in
`[0, 25]`; the output is the alphabet letter at `newIndex`, uppercased
exactly when `preserveCase` is set and the input was uppercase. -/
theorem decryptChar_alphabet_spec (c : Char) (k : Int) (pc : Bool)
    (h : jsToLowerChar c ∈ CONFIG.ALPHABET) :
    (CipherEngine.decryptChar c k pc).isSpecial = false ∧
    (CipherEngine.decryptChar c k pc).originalIndex =
      jsIndexOf (jsToLowerChar c) CONFIG.ALPHABET ∧
    (CipherEngine.decryptChar c k pc).rawCalculation =
      some (jsIndexOf (jsToLowerChar c) CONFIG.ALPHABET - k) ∧
    (CipherEngine.decryptChar c k pc).newIndex =
      ((jsIndexOf (jsToLowerChar c) CONFIG.ALPHABET - k).tmod 26 + 26).tmod 26 ∧
    (CipherEngine.decryptChar c k pc).newIndex =
      (jsIndexOf (jsToLowerChar c) CONFIG.ALPHABET - k) % 26 ∧
    0 ≤ (CipherEngine.decryptChar c k pc).newIndex ∧
    (CipherEngine.decryptChar c k pc).newIndex ≤ 25 ∧
    (CipherEngine.decryptChar c k pc).char =
      (if pc && jsIsUpperAZ c then
        jsToUpperChar
          (CONFIG.ALPHABET.getD (CipherEngine.decryptChar c k pc).newIndex.toNat '?')
      else
        CONFIG.ALPHABET.getD (CipherEngine.decryptChar c k pc).newIndex.toNat '?') := by
  have hnn := jsIndexOf_nonneg_of_mem h
  have hne : ¬ jsIndexOf (jsToLowerChar c) CONFIG.ALPHABET = -1 := by omega
  have hrange := calculateNewPosition_range
    (jsIndexOf (jsToLowerChar c) CONFIG.ALPHABET) k
  have hemod := calculateNewPosition_eq_emod
    (jsIndexOf (jsToLowerChar c) CONFIG.ALPHABET) k
  simp only [CipherEngine.decryptChar, if_neg hne]
  refine ⟨trivial, trivial, trivial, rfl, hemod, hrange.1, hrange.2, trivial⟩

/-- Witness for C1 at the concrete input `'C'` with the out-of-range key 30. -/
theorem decryptChar_alphabet_spec_witness :
    (CipherEngine.decryptChar 'C' 30 true).isSpecial = false ∧
    (CipherEngine.decryptChar 'C' 30 true).originalIndex =
      jsIndexOf (jsToLowerChar 'C') CONFIG.ALPHABET ∧
    (CipherEngine.decryptChar 'C' 30 true).rawCalculation =
      some (jsIndexOf (jsToLowerChar 'C') CONFIG.ALPHABET - 30) ∧
    (CipherEngine.decryptChar 'C' 30 true).newIndex =
      ((jsIndexOf (jsToLowerChar 'C') CONFIG.ALPHABET - 30).tmod 26 + 26).tmod 26 ∧
    (CipherEngine.decryptChar 'C' 30 true).newIndex =
      (jsIndexOf (jsToLowerChar 'C') CONFIG.ALPHABET - 30) % 26 ∧
    0 ≤ (CipherEngine.decryptChar 'C' 30 true).newIndex ∧
    (CipherEngine.decryptChar 'C' 30 true).newIndex ≤ 25 ∧
    (CipherEngine.decryptChar 'C' 30 true).char =
      (if true && jsIsUpperAZ 'C' then
        jsToUpperChar
          (CONFIG.ALPHABET.getD (CipherEngine.decryptChar 'C' 30 true).newIndex.toNat '?')
      else
        CONFIG.ALPHABET.getD (CipherEngine.decryptChar 'C' 30 true).newIndex.toNat '?') :=
  decryptChar_alphabet_spec 'C' 30 true (by decide)

/-- Claim C7: every character whose case-folded form is outside the 26-letter
alphabet decodes, under any key, to a pass-through special result in both
implementations: `isSpecial = true`, the character itself as output,
indices `-1`, and a null raw calculation. -/
theorem decryptChar_special_passthrough (c : Char) (k k2 : Int) (pc : Bool)
    (h : jsToLowerChar c ∉ CONFIG.ALPHABET) :
    CipherEngine.decryptChar c k pc =
      { isSpecial := true, char := c, originalIndex := -1, newIndex := -1,
        rawCalculation := none } ∧
    V2.CipherEngine.decryptChar c k2 =
      { isSpecial := true, char := c, originalIndex := -1, newIndex := -1,
        rawCalculation := none } := by
  have hidx := jsIndexOf_of_not_mem h
  constructor
  · simp [CipherEngine.decryptChar, hidx]
  · simp [V2.CipherEngine.decryptChar, hidx]

/-- Witness for C7 at the space character with keys 5 and -7. -/
theorem decryptChar_special_passthrough_witness :
    CipherEngine.decryptChar ' ' 5 true =
      { isSpecial := true, char := ' ', originalIndex := -1, newIndex := -1,
        rawCalculation := none } ∧
    V2.CipherEngine.decryptChar ' ' (-7) =
      { isSpecial := true, char := ' ', originalIndex := -1, newIndex := -1,
        rawCalculation := none } :=
  decryptChar_special_passthrough ' ' 5 (-7) true (by decide)

/-- Claim C10: the two duplicated cipher cores are extensionally equivalent:
`script.js`'s `decryptChar` with its default `preserveCase = true` agrees
field-by-field with the second file's `decryptChar` on every character and
every integer key. -/
theorem decryptChar_versions_equiv (c : Char) (k : Int) :
    CipherEngine.decryptChar c k true = V2.CipherEngine.decryptChar c k := by
  have hcond : (true && jsIsUpperAZ c) = ((jsToUpperChar c == c) && jsIsUpperAZ c) := by
    cases hAZ : jsIsUpperAZ c
    · simp
    · simp [jsToUpperChar_eq_self_of_AZ hAZ]
  simp only [CipherEngine.decryptChar, V2.CipherEngine.decryptChar,
    V2.CipherEngine.calculateNewPosition, CipherEngine.calculateNewPosition,
    hcond]

set_option maxRecDepth 10000 in
/-- Claim C6: decoding an alphabet letter with key `k ∈ [0,25]` and then
decoding the result with the complementary key `(26 - k) % 26` returns the
original letter. -/
theorem decryptChar_complementary_roundtrip :
    ∀ (k : Nat), k < 26 → ∀ c ∈ CONFIG.ALPHABET,
      (CipherEngine.decryptChar
        (CipherEngine.decryptChar c (k : Int) true).char
        (((26 - k) % 26 : Nat) : Int) true).char = c := by
  decide

/-- Witness for C6 at the letter `'k'` with key 3. -/
theorem decryptChar_complementary_roundtrip_witness :
    (CipherEngine.decryptChar
      (CipherEngine.decryptChar 'k' ((3 : Nat) : Int) true).char
      (((26 - 3) % 26 : Nat) : Int) true).char = 'k' :=
  decryptChar_complementary_roundtrip 3 (by decide) 'k' (by decide)

/-- One history entry pushed by `LoopEngine.nextStep`. -/
structure Snapshot where
  iteration : Int
  inputChar : Char
  key : Int
  result : DecodeResult
  accumulated : String
deriving Repr, DecidableEq

/-- The `LoopEngine.state` object of `script.js`, plus two ghost observables:
`missionCompleteCount` counts the invocations of the completion callback
(`UIController.showMissionComplete`), and `liveTimers` counts interval
timers that have been started by `play` and not cancelled by
`clearInterval`.  The `timer` field is the tracked interval handle. -/
structure LoopState where
  encryptedText : List Char
  key : Int
  currentIndex : Int
  history : List Snapshot
  isPlaying : Bool
  timer : Option Unit
  accumulatedText : String
  waitingForReveal : Bool
  missionCompleteCount : Nat
  liveTimers : Nat
deriving Repr, DecidableEq

namespace LoopEngine

/-- The literal initial `LoopEngine.state` object of `script.js`. -/
def startState : LoopState :=
  { encryptedText := [], key := CONFIG.DEFAULT_KEY, currentIndex := -1,
    history := [], isPlaying := false, timer := none, accumulatedText := "",
    waitingForReveal := false, missionCompleteCount := 0, liveTimers := 0 }

/-- `LoopEngine.pause` of `script.js`: clears the playing flag, cancels the
tracked interval (if any), and nulls the handle. -/
def pause (s : LoopState) : LoopState :=
  { s with isPlaying := false,
           liveTimers := if s.timer.isSome then s.liveTimers - 1 else s.liveTimers,
           timer := none }

/-- The key computation of `LoopEngine.init` in `script.js`:
`clamp(parseInt(key, 10) || CONFIG.DEFAULT_KEY, 0, 25)`.  On an integer
argument `parseInt` is the identity, and `|| CONFIG.DEFAULT_KEY` replaces
the falsy value 0 by the default key. -/
def initKey (key : Int) : Int :=
  clamp (if key = 0 then CONFIG.DEFAULT_KEY else key) 0 25

/-- `LoopEngine.init(text, key)` of `script.js`: pauses, then replaces the
whole state object (ghost observables survive, as they model the outside
world). -/
def init (text : List Char) (key : Int) (s : LoopState) : LoopState :=
  let s0 := pause s
  { encryptedText := text, key := initKey key, currentIndex := -1,
    history := [], isPlaying := false, timer := none, accumulatedText := "",
    waitingForReveal := false,
    missionCompleteCount := s0.missionCompleteCount,
    liveTimers := s0.liveTimers }

/-- `LoopEngine.nextStep` of `script.js`.  The two configuration toggles read
from the DOM during the call (`thinkModeToggle.checked` and
`preserveCaseToggle.checked`, the latter defaulting to `true`) are supplied
as parameters.  `UIController.showMissionComplete()` is modelled by
incrementing the ghost counter. -/
def nextStep (thinkOn preserveCase : Bool) (s : LoopState) : LoopState :=
  if s.currentIndex ≥ (s.encryptedText.length : Int) - 1 then
    let s1 := pause s
    if s.currentIndex = (s.encryptedText.length : Int) - 1 then
      { s1 with missionCompleteCount := s1.missionCompleteCount + 1 }
    else s1
  else
    let i := s.currentIndex + 1
    let c := s.encryptedText.getD i.toNat ' '
    let result := CipherEngine.decryptChar c s.key preserveCase
    let acc := s.accumulatedText.push result.char
    let snap : Snapshot :=
      { iteration := i, inputChar := c, key := s.key, result := result,
        accumulated := acc }
    let s1 := { s with currentIndex := i, accumulatedText := acc,
                       history := s.history ++ [snap],
                       waitingForReveal := thinkOn }
    if thinkOn && s1.isPlaying then pause s1 else s1

/-- `LoopEngine.prevStep` of `script.js`. -/
def prevStep (s : LoopState) : LoopState :=
  let s0 := pause s
  if s0.currentIndex < 0 then s0
  else
    let h := s0.history.dropLast
    let acc :=
      match h.getLast? with
      | some snap => snap.accumulated
      | none => ""
    { s0 with history := h, currentIndex := s0.currentIndex - 1,
              accumulatedText := acc, waitingForReveal := false }

/-- `LoopEngine.play` of `script.js`.  The speed-level resolution only picks
the tick length and does not affect the sequencer state; the essential
behavior is: no-op at the end of the text, otherwise set the playing flag
and start a NEW interval, overwriting the tracked handle without clearing
the previous interval. -/
def play (s : LoopState) : LoopState :=
  if s.currentIndex ≥ (s.encryptedText.length : Int) - 1 then s
  else
    { s with isPlaying := true, timer := some (),
             liveTimers := s.liveTimers + 1 }

end LoopEngine

/-- A serialized entry point of the sequencer, with the DOM toggle values
read during that call. -/
inductive Op where
  | next (thinkOn preserveCase : Bool)
  | prev
  | play
  | pause
  | init (text : List Char) (key : Int)
deriving Repr

/-- Dispatch one entry point. -/
def applyOp : Op → LoopState → LoopState
  | Op.next t p, s => LoopEngine.nextStep t p s
  | Op.prev, s => LoopEngine.prevStep s
  | Op.play, s => LoopEngine.play s
  | Op.pause, s => LoopEngine.pause s
  | Op.init text key, s => LoopEngine.init text key s

/-- Run a sequence of entry points left to right. -/
def run (ops : List Op) (s : LoopState) : LoopState :=
  ops.foldl (fun st op => applyOp op st) s

/-- The history-length invariant of the spec:
`history.length == cursor + 1`. -/
def historyInv (s : LoopState) : Prop :=
  (s.history.length : Int) = s.currentIndex + 1

/-- The accumulated-output invariant of the spec: `accumulatedOutput` equals
the accumulated text of the last snapshot, or the empty string. -/
def accInv (s : LoopState) : Prop :=
  s.accumulatedText =
    (match s.history.getLast? with
     | some snap => snap.accumulated
     | none => "")

/-- Preservation of the history-length invariant by every entry point. -/
theorem historyInv_applyOp (op : Op) (s : LoopState) (h : historyInv s) :
    historyInv (applyOp op s) := by
  unfold historyInv at *
  cases op with
  | next t p =>
      simp only [applyOp, LoopEngine.nextStep, LoopEngine.pause]
      split
      · split <;> simpa using h
      · split <;> simp <;> omega
  | prev =>
      simp only [applyOp, LoopEngine.prevStep, LoopEngine.pause]
      split
      · simpa using h
      · rename_i hge
        simp only [List.length_dropLast]
        simp at hge ⊢
        omega
  | play =>
      simp only [applyOp, LoopEngine.play]
      split
      · exact h
      · simpa using h
  | pause => simpa [applyOp, LoopEngine.pause] using h
  | init text key => simp [applyOp, LoopEngine.init, LoopEngine.pause]

/-- The history-length invariant is preserved by arbitrary runs. -/
theorem historyInv_run (ops : List Op) (s : LoopState) (h : historyInv s) :
    historyInv (run ops s) := by
  induction ops generalizing s with
  | nil => exact h
  | cons op rest ih => exact ih _ (historyInv_applyOp op s h)

/-- Claim C4: `history.length == cursor + 1` holds in the state produced by
`init` and is preserved by every sequence of entry points (in particular by
every sequence of `nextStep` and `prevStep` calls, including calls that
attempt to step beyond either bound). -/
theorem history_length_invariant (text : List Char) (key : Int) (ops : List Op) :
    historyInv (LoopEngine.init text key LoopEngine.startState) ∧
      historyInv (run ops (LoopEngine.init text key LoopEngine.startState)) := by
  have hinit : historyInv (LoopEngine.init text key LoopEngine.startState) := by
    simp [historyInv, LoopEngine.init, LoopEngine.pause]
  exact ⟨hinit, historyInv_run ops _ hinit⟩

/-- Preservation of the accumulated-output invariant by every entry point. -/
theorem accInv_applyOp (op : Op) (s : LoopState) (h : accInv s) :
    accInv (applyOp op s) := by
  unfold accInv at *
  cases op with
  | next t p =>
      simp only [applyOp, LoopEngine.nextStep, LoopEngine.pause]
      split
      · split <;> simpa using h
      · split <;> simp [List.getLast?_concat]
  | prev =>
      simp only [applyOp, LoopEngine.prevStep, LoopEngine.pause]
      split
      · simpa using h
      · simp
  | play =>
      simp only [applyOp, LoopEngine.play]
      split
      · exact h
      · simpa using h
  | pause => simpa [applyOp, LoopEngine.pause] using h
  | init text key => simp [applyOp, LoopEngine.init, LoopEngine.pause]

/-- Folding `nextStep` over a list of per-call toggle pairs. -/
def stepsForward (tl : List (Bool × Bool)) (s : LoopState) : LoopState :=
  tl.foldl (fun st tp => LoopEngine.nextStep tp.1 tp.2 st) s

/-- Iterating `prevStep`. -/
def stepsBackward : Nat → LoopState → LoopState
  | 0, s => s
  | n + 1, s => stepsBackward n (LoopEngine.prevStep s)

/-- A `nextStep` call strictly below the last index advances the cursor,
appends one snapshot, and keeps the ciphertext. -/
theorem nextStep_advance (t p : Bool) (s : LoopState)
    (hb : ¬ s.currentIndex ≥ (s.encryptedText.length : Int) - 1) :
    (LoopEngine.nextStep t p s).currentIndex = s.currentIndex + 1 ∧
    (LoopEngine.nextStep t p s).encryptedText = s.encryptedText ∧
    (LoopEngine.nextStep t p s).history.length = s.history.length + 1 := by
  simp only [LoopEngine.nextStep, if_neg hb]
  split <;> simp [LoopEngine.pause]

/-- Stepping forward while room remains advances the cursor by one per call
and maintains both invariants. -/
theorem stepsForward_spec (tl : List (Bool × Bool)) (s : LoopState)
    (h1 : historyInv s) (h2 : accInv s)
    (hb : s.currentIndex + tl.length ≤ (s.encryptedText.length : Int) - 1) :
    historyInv (stepsForward tl s) ∧ accInv (stepsForward tl s) ∧
    (stepsForward tl s).currentIndex = s.currentIndex + tl.length ∧
    (stepsForward tl s).encryptedText = s.encryptedText := by
  induction tl generalizing s with
  | nil =>
      refine ⟨h1, h2, by simp [stepsForward], by simp [stepsForward]⟩
  | cons tp rest ih =>
      have hb1 : ¬ s.currentIndex ≥ (s.encryptedText.length : Int) - 1 := by
        simp only [List.length_cons] at hb
        push_cast at hb
        omega
      have hadv := nextStep_advance tp.1 tp.2 s hb1
      have h1' := historyInv_applyOp (Op.next tp.1 tp.2) s h1
      have h2' := accInv_applyOp (Op.next tp.1 tp.2) s h2
      simp only [applyOp] at h1' h2'
      have hstep : stepsForward (tp :: rest) s =
          stepsForward rest (LoopEngine.nextStep tp.1 tp.2 s) := by
        simp [stepsForward]
      rw [hstep]
      have hb' : (LoopEngine.nextStep tp.1 tp.2 s).currentIndex + rest.length ≤
          ((LoopEngine.nextStep tp.1 tp.2 s).encryptedText.length : Int) - 1 := by
        rw [hadv.1, hadv.2.1]
        simp only [List.length_cons] at hb
        push_cast at hb
        omega
      have hres := ih (LoopEngine.nextStep tp.1 tp.2 s) h1' h2' hb'
      refine ⟨hres.1, hres.2.1, ?_, ?_⟩
      · rw [hres.2.2.1, hadv.1]
        simp only [List.length_cons]
        push_cast
        omega
      · rw [hres.2.2.2, hadv.2.1]

/-- Stepping backward as many times as there are snapshots drains the
history, returns the cursor to -1 and the accumulated output to empty. -/
theorem stepsBackward_drain (m : Nat) :
    ∀ (s : LoopState), historyInv s → accInv s → s.history.length = m →
    (stepsBackward m s).currentIndex = -1 ∧
    (stepsBackward m s).history = [] ∧
    (stepsBackward m s).accumulatedText = "" := by
  induction m with
  | zero =>
      intro s h1 h2 hm
      have hnil : s.history = [] := List.eq_nil_of_length_eq_zero hm
      unfold historyInv at h1
      unfold accInv at h2
      rw [hnil] at h1 h2
      simp at h1 h2
      simp only [stepsBackward]
      exact ⟨by omega, hnil, h2⟩
  | succ n ih =>
      intro s h1 h2 hm
      unfold historyInv at h1
      rw [hm] at h1
      have hge : ¬ s.currentIndex < 0 := by push_cast at h1; omega
      have hpop : LoopEngine.prevStep s =
          { LoopEngine.pause s with
              history := s.history.dropLast,
              currentIndex := s.currentIndex - 1,
              accumulatedText :=
                (match s.history.dropLast.getLast? with
                 | some snap => snap.accumulated
                 | none => ""),
              waitingForReveal := false } := by
        simp only [LoopEngine.prevStep, LoopEngine.pause]
        rw [if_neg (by simpa using hge)]
      have h1' : historyInv (LoopEngine.prevStep s) := by
        unfold historyInv
        rw [hpop]
        simp [LoopEngine.pause, List.length_dropLast, hm]
        push_cast at h1 ⊢
        omega
      have h2' : accInv (LoopEngine.prevStep s) := by
        unfold accInv
        rw [hpop]
      have hm' : (LoopEngine.prevStep s).history.length = n := by
        rw [hpop]
        simp [LoopEngine.pause, List.length_dropLast, hm]
      have : stepsBackward (n + 1) s = stepsBackward n (LoopEngine.prevStep s) := rfl
      rw [this]
      exact ih (LoopEngine.prevStep s) h1' h2' hm'

/-- Claim C3: for every ciphertext and key, stepping forward from the
freshly initialised state through all symbols (with arbitrary per-call
toggle readings) and then stepping backward the same number of times
returns the cursor to -1, empties the history, and resets the accumulated
output to the empty string. -/
theorem forward_then_backward (text : List Char) (key : Int)
    (tl : List (Bool × Bool)) (hlen : tl.length = text.length) :
    (stepsBackward text.length
      (stepsForward tl (LoopEngine.init text key LoopEngine.startState))).currentIndex = -1 ∧
    (stepsBackward text.length
      (stepsForward tl (LoopEngine.init text key LoopEngine.startState))).history = [] ∧
    (stepsBackward text.length
      (stepsForward tl (LoopEngine.init text key LoopEngine.startState))).accumulatedText = "" := by
  set s0 := LoopEngine.init text key LoopEngine.startState with hs0
  have h1 : historyInv s0 := by
    simp [hs0, historyInv, LoopEngine.init, LoopEngine.pause]
  have h2 : accInv s0 := by
    simp [hs0, accInv, LoopEngine.init, LoopEngine.pause]
  have hcur : s0.currentIndex = -1 := by simp [hs0, LoopEngine.init]
  have htext : s0.encryptedText = text := by simp [hs0, LoopEngine.init]
  have hb : s0.currentIndex + tl.length ≤ (s0.encryptedText.length : Int) - 1 := by
    rw [hcur, htext, hlen]
    omega
  have hfwd := stepsForward_spec tl s0 h1 h2 hb
  have hlen' : (stepsForward tl s0).history.length = text.length := by
    have hh := hfwd.1
    unfold historyInv at hh
    rw [hfwd.2.2.1, hcur, hlen] at hh
    omega
  have := stepsBackward_drain text.length (stepsForward tl s0)
    hfwd.1 hfwd.2.1 hlen'
  exact this

/-- Witness for C3 on the ciphertext "spy" with key 3 and three forward
calls with varying toggle readings. -/
theorem forward_then_backward_witness :
    (stepsBackward ("spy".toList).length
      (stepsForward [(false, true), (true, true), (false, false)]
        (LoopEngine.init "spy".toList 3 LoopEngine.startState))).currentIndex = -1 ∧
    (stepsBackward ("spy".toList).length
      (stepsForward [(false, true), (true, true), (false, false)]
        (LoopEngine.init "spy".toList 3 LoopEngine.startState))).history = [] ∧
    (stepsBackward ("spy".toList).length
      (stepsForward [(false, true), (true, true), (false, false)]
        (LoopEngine.init "spy".toList 3 LoopEngine.startState))).accumulatedText = "" :=
  forward_then_backward "spy".toList 3 [(false, true), (true, true), (false, false)]
    (by decide)

/-- Claim C2 (refuted by the code): on ciphertext "a" with key 3, the first
`nextStep` call processes the only symbol without signalling; the second
call signals completion; and the third call, made after completion,
signals completion AGAIN.  The completion callback fires on every call made
with the cursor at the last index (a level-triggered check), not exactly
once per run, although the cursor indeed never advances past the last
index. -/
theorem nextStep_completion_fires_repeatedly :
    (LoopEngine.nextStep false true
      (LoopEngine.init ['a'] 3 LoopEngine.startState)).missionCompleteCount = 0 ∧
    (LoopEngine.nextStep false true (LoopEngine.nextStep false true
      (LoopEngine.init ['a'] 3 LoopEngine.startState))).missionCompleteCount = 1 ∧
    (LoopEngine.nextStep false true (LoopEngine.nextStep false true
      (LoopEngine.nextStep false true
        (LoopEngine.init ['a'] 3 LoopEngine.startState)))).missionCompleteCount = 2 ∧
    (LoopEngine.nextStep false true (LoopEngine.nextStep false true
      (LoopEngine.nextStep false true
        (LoopEngine.init ['a'] 3 LoopEngine.startState)))).currentIndex = 0 := by
  decide

namespace V2

/-- The `LoopEngine.state` object of the second file (no Think-Mode flag,
no ghost fields needed for the claims settled against this version). -/
structure LoopState where
  encryptedText : List Char
  key : Int
  currentIndex : Int
  history : List Snapshot
  isPlaying : Bool
  timer : Option Unit
  accumulatedText : String
deriving Repr, DecidableEq

namespace LoopEngine

/-- The literal initial `LoopEngine.state` object of the second file. -/
def startState : LoopState :=
  { encryptedText := [], key := 3, currentIndex := -1, history := [],
    isPlaying := false, timer := none, accumulatedText := "" }

/-- `LoopEngine.pause` of the second file: clears the playing flag and the
interval; unlike `script.js` it does not null the handle. -/
def pause (s : LoopState) : LoopState :=
  { s with isPlaying := false }

/-- `LoopEngine.init` of the second file: pauses, then replaces the whole
state.  The key is stored verbatim: no parsing, no defaulting, and no
clamping. -/
def init (text : List Char) (key : Int) (s : LoopState) : LoopState :=
  let _s0 := pause s
  { encryptedText := text, key := key, currentIndex := -1, history := [],
    isPlaying := false, timer := none, accumulatedText := "" }

end LoopEngine

end V2

/-- Claim C5 counterexample: `script.js` replaces the in-range key 0 by the
default key 3 (the `|| CONFIG.DEFAULT_KEY` fallback treats 0 as falsy), so
0 is NOT stored unchanged; and the second file stores the out-of-range key
30 verbatim, so it is NOT clamped into [0, 25]. -/
theorem init_key_claim_refuted :
    (LoopEngine.init ['a'] 0 LoopEngine.startState).key = 3 ∧
    (LoopEngine.init ['a'] 0 LoopEngine.startState).key ≠ 0 ∧
    (V2.LoopEngine.init ['a'] 30 V2.LoopEngine.startState).key = 30 ∧
    (V2.LoopEngine.init ['a'] 30 V2.LoopEngine.startState).key ≠ clamp 30 0 25 := by
  decide

/-- Claim C5 as amended: in `script.js`, any nonzero integer key is clamped
into [0, 25] (so the stored key always lies in that range), while the key 0
is replaced by the default key 3 before clamping; in the second file the
key is stored unchanged, without clamping.  Neither version rejects any
key. -/
theorem init_key_behavior (text : List Char) (k : Int) (s : LoopState)
    (s2 : V2.LoopState) :
    (k ≠ 0 →
      (LoopEngine.init text k s).key = clamp k 0 25 ∧
      0 ≤ (LoopEngine.init text k s).key ∧
      (LoopEngine.init text k s).key ≤ 25) ∧
    (LoopEngine.init text 0 s).key = CONFIG.DEFAULT_KEY ∧
    (V2.LoopEngine.init text k s2).key = k := by
  refine ⟨?_, ?_, ?_⟩
  · intro hk
    simp only [LoopEngine.init, LoopEngine.initKey, if_neg hk]
    refine ⟨by trivial, by simp only [clamp]; omega, by simp only [clamp]; omega⟩
  · simp [LoopEngine.init, LoopEngine.initKey, clamp, CONFIG.DEFAULT_KEY]
  · simp [V2.LoopEngine.init]

/-- Witness for C5-as-amended at the keys 30 and 0. -/
theorem init_key_behavior_witness :
    ((LoopEngine.init ['a'] 30 LoopEngine.startState).key = clamp 30 0 25 ∧
      0 ≤ (LoopEngine.init ['a'] 30 LoopEngine.startState).key ∧
      (LoopEngine.init ['a'] 30 LoopEngine.startState).key ≤ 25) ∧
    (LoopEngine.init ['a'] 0 LoopEngine.startState).key = CONFIG.DEFAULT_KEY ∧
    (V2.LoopEngine.init ['a'] 30 V2.LoopEngine.startState).key = 30 := by
  have h := init_key_behavior ['a'] 30 LoopEngine.startState V2.LoopEngine.startState
  exact ⟨h.1 (by decide), h.2.1, h.2.2⟩

/-- The at-most-one-live-timer bookkeeping invariant: the ghost count of
live intervals matches the tracked handle. -/
def timerInv (s : LoopState) : Prop :=
  s.liveTimers = (if s.timer.isSome then 1 else 0)

/-- Claim C8 counterexample: from a fresh two-character mission, calling
`play` twice (with no intervening cancellation) leaves TWO live interval
timers: `play` does not cancel the pending timer before starting a new
one, so more than one active timer can exist for the sequencer. -/
theorem play_twice_two_live_timers :
    (LoopEngine.play (LoopEngine.play
      (LoopEngine.init ['a', 'b'] 3 LoopEngine.startState))).liveTimers = 2 ∧
    ¬ (LoopEngine.play (LoopEngine.play
      (LoopEngine.init ['a', 'b'] 3 LoopEngine.startState))).liveTimers ≤ 1 := by
  decide

/-- Claim C8 as amended: `pause`, `prevStep`, and `init` do cancel the
pending timer before mutating state (leaving no live timer), and
`nextStep` never creates a timer; but `play` starts a new interval without
cancelling a pending one, so at most one live timer is guaranteed only
when `play` is invoked with no timer pending. -/
theorem timer_cancellation_discipline (s : LoopState) (text : List Char)
    (key : Int) (t p : Bool) (h : timerInv s) :
    ((LoopEngine.pause s).timer = none ∧ (LoopEngine.pause s).liveTimers = 0) ∧
    ((LoopEngine.prevStep s).timer = none ∧
      (LoopEngine.prevStep s).liveTimers = 0) ∧
    ((LoopEngine.init text key s).timer = none ∧
      (LoopEngine.init text key s).liveTimers = 0) ∧
    timerInv (LoopEngine.nextStep t p s) ∧
    (s.timer = none →
      timerInv (LoopEngine.play s) ∧ (LoopEngine.play s).liveTimers ≤ 1) := by
  unfold timerInv at h
  have hp : (LoopEngine.pause s).timer = none ∧
      (LoopEngine.pause s).liveTimers = 0 := by
    cases htm : s.timer with
    | none =>
        rw [htm] at h
        simp at h
        simp [LoopEngine.pause, htm, h]
    | some u =>
        rw [htm] at h
        simp at h
        simp [LoopEngine.pause, htm, h]
  have hprev : (LoopEngine.prevStep s).timer = none ∧
      (LoopEngine.prevStep s).liveTimers = 0 := by
    simp only [LoopEngine.prevStep]
    split
    · exact hp
    · simpa using hp
  have hinit : (LoopEngine.init text key s).timer = none ∧
      (LoopEngine.init text key s).liveTimers = 0 := by
    simp only [LoopEngine.init]
    exact ⟨by trivial, hp.2⟩
  refine ⟨hp, hprev, hinit, ?_, ?_⟩
  · unfold timerInv
    simp only [LoopEngine.nextStep]
    split
    · split
      · simp [hp.1, hp.2]
      · simp [hp.1, hp.2]
    · split
      · rename_i hthink
        cases htm : s.timer with
        | none =>
            rw [htm] at h
            simp at h
            simp [LoopEngine.pause, htm, h]
        | some u =>
            rw [htm] at h
            simp at h
            simp [LoopEngine.pause, htm, h]
      · simpa using h
  · intro htm
    rw [htm] at h
    simp at h
    unfold timerInv
    simp only [LoopEngine.play]
    split
    · simp [htm, h]
    · simp [h]

/-- Witness for C8-as-amended at the fresh start state. -/
theorem timer_cancellation_discipline_witness :
    ((LoopEngine.pause LoopEngine.startState).timer = none ∧
      (LoopEngine.pause LoopEngine.startState).liveTimers = 0) ∧
    ((LoopEngine.prevStep LoopEngine.startState).timer = none ∧
      (LoopEngine.prevStep LoopEngine.startState).liveTimers = 0) ∧
    ((LoopEngine.init ['a'] 3 LoopEngine.startState).timer = none ∧
      (LoopEngine.init ['a'] 3 LoopEngine.startState).liveTimers = 0) ∧
    timerInv (LoopEngine.nextStep false false LoopEngine.startState) ∧
    (LoopEngine.startState.timer = none →
      timerInv (LoopEngine.play LoopEngine.startState) ∧
      (LoopEngine.play LoopEngine.startState).liveTimers ≤ 1) :=
  timer_cancellation_discipline LoopEngine.startState ['a'] 3 false false
    (by simp [timerInv, LoopEngine.startState])

/-- A stored attempt record, as read back by the CSV exporters of either
file.  The second file's exporter ignores `historyJSON`. -/
structure AttemptRecord where
  timestamp : String
  studentId : String
  encrypted : String
  key : Int
  finalDecrypted : String
  historyJSON : String
deriving Repr, DecidableEq

/-- `.replace(/"/g, '""')` as used by both exporters: every double-quote
character is doubled. -/
def jsReplaceQuotes (s : String) : String :=
  String.mk (s.data.flatMap fun c => if c = '"' then ['"', '"'] else [c])

/-- Wrapping a field in double quotes, as the template literals do. -/
def quoteWrap (s : String) : String := "\"" ++ s ++ "\""

namespace ClassSync

/-- The per-record data row array built by `exportClassCSV` in `script.js`:
six entries, with the ciphertext and final output merely wrapped in quotes
and only the history JSON quote-escaped. -/
def rowFields (r : AttemptRecord) : List String :=
  [r.timestamp, r.studentId, "\"" ++ r.encrypted ++ "\"", toString r.key,
   "\"" ++ r.finalDecrypted ++ "\"",
   "\"" ++ jsReplaceQuotes r.historyJSON ++ "\""]

/-- The joined data row, `row.join(',')`. -/
def exportRow (r : AttemptRecord) : String :=
  String.intercalate "," (rowFields r)

end ClassSync

namespace V2

namespace ClassSync

/-- The per-record data row of `exportClassCSV` in the second file: a
template literal producing timestamp, quoted student id, quote-escaped
ciphertext, key, and quote-escaped final output. -/
def exportRow (r : AttemptRecord) : String :=
  r.timestamp ++ ",\"" ++ r.studentId ++ "\",\"" ++ jsReplaceQuotes r.encrypted
    ++ "\"," ++ toString r.key ++ ",\"" ++ jsReplaceQuotes r.finalDecrypted ++ "\""

end ClassSync

end V2

/-- Claim C9 counterexample: for a record whose ciphertext contains an
embedded double quote, the `script.js` data row has six fields, and its
ciphertext field keeps the quote UNdoubled, differing from the
standard-CSV-escaped field the claim describes. -/
theorem script_export_row_unescaped :
    (ClassSync.rowFields
      { timestamp := "t0", studentId := "s1", encrypted := "ab\"cd", key := 3,
        finalDecrypted := "xy\"z", historyJSON := "[]" }).length = 6 ∧
    (ClassSync.rowFields
      { timestamp := "t0", studentId := "s1", encrypted := "ab\"cd", key := 3,
        finalDecrypted := "xy\"z", historyJSON := "[]" }).getD 2 "" =
      "\"ab\"cd\"" ∧
    "\"ab\"cd\"" ≠ quoteWrap (jsReplaceQuotes "ab\"cd") := by
  refine ⟨rfl, rfl, by decide⟩

/-- Claim C9 as amended: the second file's exporter emits, per record, the
row timestamp, quoted student id, quote-escaped ciphertext, key, and
quote-escaped final output (embedded double quotes doubled per standard
CSV escaping, as the doubling lemma in the last conjunct states); the
`script.js` exporter instead emits six fields, with the ciphertext and
final output wrapped in quotes but NOT quote-escaped, and only the
appended history JSON field quote-escaped. -/
theorem export_row_formats :
    (∀ r : AttemptRecord,
      V2.ClassSync.exportRow r =
        r.timestamp ++ "," ++ quoteWrap r.studentId ++ "," ++
          quoteWrap (jsReplaceQuotes r.encrypted) ++ "," ++ toString r.key ++
          "," ++ quoteWrap (jsReplaceQuotes r.finalDecrypted) ∧
      ClassSync.rowFields r =
        [r.timestamp, r.studentId, quoteWrap r.encrypted, toString r.key,
         quoteWrap r.finalDecrypted, quoteWrap (jsReplaceQuotes r.historyJSON)]) ∧
    (∀ str : String,
      (jsReplaceQuotes str).data.count '"' = 2 * str.data.count '"') := by
  constructor
  · intro r
    constructor
    · have h1 : (",\"" : String) = "," ++ "\"" := rfl
      have h2 : ("\",\"" : String) = "\"" ++ "," ++ "\"" := rfl
      have h3 : ("\"," : String) = "\"" ++ "," := rfl
      simp only [V2.ClassSync.exportRow, quoteWrap, h1, h2, h3,
        String.append_assoc]
    · rfl
  · intro str
    show (str.data.flatMap fun c => if c = '"' then ['"', '"'] else [c]).count '"' =
      2 * str.data.count '"'
    induction str.data with
    | nil => rfl
    | cons c tl ih =>
        by_cases hc : c = '"'
        · simp [hc, ih, List.count_cons]
          omega
        · simp [hc, ih, List.count_cons]

end SpySchool
